import Mathlib

/-!
Verification of the DiscordAdminHelper viewer (src/viewer/script.js).

The script is a browser-side UI over a message-archive backend.  We give a
shallow embedding of its pure core: the flag codec (`getFlagIcon` and the
CSS-class derivations used by `renderMessage` and `toggleFlag`), the
HTML escaper `escapeHtml`, the stats bar-chart computation of `fetchStats`,
the DOM patching performed by `toggleFlag`, and the reaction-modal state
machine (`promptReact` / `closeModal` / `selectEmoji`).

Strings are modelled as `List Char`; JavaScript's `String.prototype.split`
with a one-character separator is `splitOnChar`, `String.prototype.startsWith`
is `listStartsWith`, and JavaScript string truthiness (`if (s)`) is `s ≠ []`.
-/

/-- Coerce a string literal to its character list. -/
def str (s : String) : List Char := s.data

/-- The apostrophe character (U+0027), kept as a named constant. -/
def apos : Char := Char.ofNat 39

/-- `listStartsWith p s` is JavaScript `s.startsWith(p)`. -/
def listStartsWith : List Char → List Char → Bool
  | [], _ => true
  | _ :: _, [] => false
  | p :: ps, c :: cs => p = c && listStartsWith ps cs

/-- `splitOnChar sep s` is JavaScript `s.split(sep)` for a one-character
separator: the list of (possibly empty) segments between occurrences of
`sep`.  It is always non-empty. -/
def splitOnChar (sep : Char) : List Char → List (List Char)
  | [] => [[]]
  | c :: cs =>
    match splitOnChar sep cs with
    | [] => [[]]
    | h :: t => if c = sep then [] :: h :: t else (c :: h) :: t

/-- The emoji extraction in `getFlagIcon` (script.js line 101):
`flag.split(':')[1]`, i.e. the second split segment (the text between the
first and the second colon).  JavaScript yields `undefined` out of range;
inside the `startsWith('pending_react:')` guard the index always exists,
so the default never fires. -/
def pendingEmoji (flag : List Char) : List Char :=
  (splitOnChar ':' flag).getD 1 []

/-- The markup template of `getFlagIcon`'s pending branch (script.js
line 102): the span with hourglass and emoji. -/
def pendingMarkup (emoji : List Char) : List Char :=
  str "<span title=\"Pending reaction: " ++ emoji ++ str "\">⏳" ++
    emoji ++ str "</span>"

/-- `getFlagIcon` (script.js lines 97-105): green and red circles for the
simple tags, the pending-reaction span when the flag is truthy and starts
with `pending_react:`, the neutral circle otherwise. -/
def getFlagIcon (flag : List Char) : List Char :=
  if flag = str "green" then str "🟢"
  else if flag = str "red" then str "🔴"
  else if flag ≠ [] ∧ listStartsWith (str "pending_react:") flag = true then
    pendingMarkup (pendingEmoji flag)
  else str "⚪"

example : getFlagIcon (str "green") = str "🟢" := by decide
example : pendingEmoji (str "pending_react:a:b") = str "a" := by decide
example : getFlagIcon (str "pending_react:a:b") = pendingMarkup (str "a") := by
  decide
example : splitOnChar ':' (str "pending_react:") = [str "pending_react", []] := by
  decide

/-! ## The HTML escaper (script.js lines 268-275) -/

/-- `replaceAllChar c r s` is JavaScript `s.replace(/c/g, r)` for a
one-character pattern: every occurrence of `c` becomes `r`. -/
def replaceAllChar (c : Char) (r : List Char) : List Char → List Char
  | [] => []
  | x :: xs =>
    if x = c then r ++ replaceAllChar c r xs else x :: replaceAllChar c r xs

/-- `escapeHtml` (script.js lines 268-275): the five global replacements,
applied in source order — ampersand first, then `<`, `>`, `"`, apostrophe. -/
def escapeHtml (s : List Char) : List Char :=
  replaceAllChar apos (str "&#039;")
    (replaceAllChar '"' (str "&quot;")
      (replaceAllChar '>' (str "&gt;")
        (replaceAllChar '<' (str "&lt;")
          (replaceAllChar '&' (str "&amp;") s))))

/-- The per-character escaping table `escapeHtml` amounts to (because the
ampersand pass runs first, later passes never touch entities already
produced). -/
def escapeChar (c : Char) : List Char :=
  if c = '&' then str "&amp;"
  else if c = '<' then str "&lt;"
  else if c = '>' then str "&gt;"
  else if c = '"' then str "&quot;"
  else if c = apos then str "&#039;"
  else [c]

/-- An HTML text decoder for the five entities `escapeHtml` emits: the
"visible text content" of the escaped markup when embedded in a page. -/
def htmlDecode (l : List Char) : List Char :=
  match l with
  | [] => []
  | c :: rest =>
    if c = '&' ∧ listStartsWith (str "amp;") rest = true then
      '&' :: htmlDecode (rest.drop 4)
    else if c = '&' ∧ listStartsWith (str "lt;") rest = true then
      '<' :: htmlDecode (rest.drop 3)
    else if c = '&' ∧ listStartsWith (str "gt;") rest = true then
      '>' :: htmlDecode (rest.drop 3)
    else if c = '&' ∧ listStartsWith (str "quot;") rest = true then
      '"' :: htmlDecode (rest.drop 5)
    else if c = '&' ∧ listStartsWith (str "#039;") rest = true then
      apos :: htmlDecode (rest.drop 5)
    else c :: htmlDecode rest
termination_by l.length
decreasing_by all_goals (simp; try omega)

/-- `noRawSpecials s` holds when `s` contains no unescaped occurrence of
the five special characters: every ampersand starts one of the five
entities, and `<`, `>`, `"`, apostrophe do not occur at all. -/
def noRawSpecials (l : List Char) : Bool :=
  match l with
  | [] => true
  | c :: rest =>
    if c = '&' ∧ listStartsWith (str "amp;") rest = true then
      noRawSpecials (rest.drop 4)
    else if c = '&' ∧ listStartsWith (str "lt;") rest = true then
      noRawSpecials (rest.drop 3)
    else if c = '&' ∧ listStartsWith (str "gt;") rest = true then
      noRawSpecials (rest.drop 3)
    else if c = '&' ∧ listStartsWith (str "quot;") rest = true then
      noRawSpecials (rest.drop 5)
    else if c = '&' ∧ listStartsWith (str "#039;") rest = true then
      noRawSpecials (rest.drop 5)
    else
      decide (c ≠ '&' ∧ c ≠ '<' ∧ c ≠ '>' ∧ c ≠ '"' ∧ c ≠ apos) &&
        noRawSpecials rest
termination_by l.length
decreasing_by all_goals (simp; try omega)

example : escapeHtml (str "a<b&c") = str "a&lt;b&amp;c" := by decide

/-! ## The DOM model and `toggleFlag` (script.js lines 172-194) -/

/-- One rendered message element (`div.message-item`): its `msg-` id tag,
its class list, the inner HTML of its `.flag-indicator` span, and its
remaining content (author, timestamp, body, controls), which the patch
path never touches. -/
structure MsgNode where
  msgId : List Char
  classes : List (List Char)
  icon : List Char
  content : List Char
  deriving DecidableEq, Repr

/-- `classList.remove(c)`: drop every occurrence of the token. -/
def classListRemove (cs : List (List Char)) (c : List Char) :
    List (List Char) :=
  cs.filter (fun x => x ≠ c)

/-- `classList.add(c)`: append the token unless already present. -/
def classListAdd (cs : List (List Char)) (c : List Char) :
    List (List Char) :=
  if c ∈ cs then cs else cs ++ [c]

/-- The three flag state classes `toggleFlag` removes before re-adding
(script.js line 184). -/
def knownFlagClasses : List (List Char) :=
  [str "flag-green", str "flag-red", str "flag-pending_react"]

/-- The class `toggleFlag` adds (script.js line 185): none for `'none'`,
otherwise `flag-` followed by the value truncated at its first colon
(`color.split(':')[0]`). -/
def addedFlagClass (color : List Char) : Option (List Char) :=
  if color = str "none" then none
  else some (str "flag-" ++ (splitOnChar ':' color).getD 0 [])

/-- `el.classList.remove('flag-green', 'flag-red', 'flag-pending_react')`
(script.js line 184). -/
def cleanFlagClasses (cs : List (List Char)) : List (List Char) :=
  classListRemove
    (classListRemove (classListRemove cs (str "flag-green"))
      (str "flag-red"))
    (str "flag-pending_react")

/-- The per-element body of `toggleFlag`'s success branch (script.js
lines 183-189): remove the three flag classes, add the derived one when
the value is not `'none'`, and set the indicator to `getFlagIcon(color)`. -/
def patchNode (color : List Char) (el : MsgNode) : MsgNode :=
  let classes :=
    match addedFlagClass color with
    | none => cleanFlagClasses el.classes
    | some c => classListAdd (cleanFlagClasses el.classes) c
  { el with classes := classes, icon := getFlagIcon color }

/-- The success branch of `toggleFlag` over the whole document:
`querySelectorAll('[id="msg-<id>"]')` selects every element tagged with
the message id, and each is patched in place; all other nodes are left
as they are. -/
def toggleFlagSuccess (messageId color : List Char) (dom : List MsgNode) :
    List MsgNode :=
  dom.map (fun el => if el.msgId = messageId then patchNode color el else el)

/-- Outcome of the `fetch` PUT in `toggleFlag`: the promise rejects
(network failure) or resolves with a response whose `ok` flag is given. -/
inductive FetchOutcome
  | netError
  | response (ok : Bool)
  deriving DecidableEq, Repr

/-- Result of a `toggleFlag` call: the document afterwards and whether
`console.error` ran.  The whole body sits in `try`/`catch`, so the
function never throws to its caller; this is modelled by totality. -/
structure ToggleResult where
  dom : List MsgNode
  logged : Bool
  deriving DecidableEq, Repr

/-- `toggleFlag` (script.js lines 172-194): on a thrown network error the
catch block logs and the DOM is untouched; on a response, the DOM is
patched only when `response.ok`, and nothing is ever logged. -/
def toggleFlag (messageId color : List Char) (outcome : FetchOutcome)
    (dom : List MsgNode) : ToggleResult :=
  match outcome with
  | .netError => ⟨dom, true⟩
  | .response ok =>
    if ok then ⟨toggleFlagSuccess messageId color dom, false⟩
    else ⟨dom, false⟩

/-- `isFailure` marks the outcomes the spec calls a failed request:
a network failure or a non-success response. -/
def isFailure : FetchOutcome → Bool
  | .netError => true
  | .response ok => !ok

/-- The flag-derived part of a node's visual state: its flag state
classes together with its indicator markup. -/
def flagVisual (el : MsgNode) : List (List Char) × List Char :=
  (el.classes.filter (fun c => decide (c ∈ knownFlagClasses)), el.icon)

/-- The flag state classes a freshly patched node carries, as a function
of the flag value alone. -/
def flagClassesFor (color : List Char) : List (List Char) :=
  match addedFlagClass color with
  | none => []
  | some c => if c ∈ knownFlagClasses then [c] else []

example :
    flagVisual (patchNode (str "pending_react:x")
      ⟨str "1", [str "message-item", str "flag-green"], str "⚪", []⟩) =
      ([str "flag-pending_react"], getFlagIcon (str "pending_react:x")) := by
  decide

/-! ## `renderMessage`'s class derivation (script.js lines 69-74) -/

/-- The `flagClass` local of `renderMessage` (script.js line 70): a class
only for the two simple tags, the empty string for everything else
(including `pending_react:<emoji>` values). -/
def renderFlagClass (flag : List Char) : List Char :=
  if flag = str "green" then str "flag-green"
  else if flag = str "red" then str "flag-red"
  else []

/-- The class tokens of a freshly rendered message element (script.js
line 74): the template `message-item ${isTarget ? 'target-message' : ''}
${flagClass}` after HTML class-attribute whitespace splitting. -/
def renderClasses (flag : List Char) (isTarget : Bool) :
    List (List Char) :=
  [str "message-item"] ++
    (if isTarget then [str "target-message"] else []) ++
    (if renderFlagClass flag ≠ [] then [renderFlagClass flag] else [])

example :
    renderClasses (str "pending_react:✅") true =
      [str "message-item", str "target-message"] := by decide

/-! ## `fetchStats` (script.js lines 234-261) -/

/-- One entry of the `/stats/word-frequency` payload.  Counts are
JavaScript numbers; the exact arithmetic of the bar widths is modelled
over `ℚ`. -/
structure WordStat where
  word : List Char
  count : ℚ
  deriving DecidableEq

/-- What `fetchStats` writes into `#frequency-table` on a successful
response: the empty-state placeholder, or one labeled bar per entry
(word, width percentage, count). -/
inductive StatsView
  | placeholder
  | bars (items : List (List Char × ℚ × ℚ))
  deriving DecidableEq

/-- `Math.max(...stats.map(s => s.count))` (script.js line 247): the
maximum of the counts.  `Math.max()` of no arguments is `-Infinity`; the
empty case is unreachable behind the length guard, and is given an
arbitrary value here. -/
def maxCount : List ℚ → ℚ
  | [] => 0
  | [x] => x
  | x :: y :: xs => max x (maxCount (y :: xs))

/-- The rendering logic of `fetchStats` (script.js lines 242-257): the
placeholder when the list is empty (no maximum and no ratio is ever
computed on that path), otherwise one bar per entry with width
`(count / maxCount) * 100`. -/
def fetchStatsRender (stats : List WordStat) : StatsView :=
  if stats.length = 0 then .placeholder
  else
    let m := maxCount (stats.map WordStat.count)
    .bars (stats.map (fun s => (s.word, s.count / m * 100, s.count)))

example :
    fetchStatsRender [⟨str "a", 10⟩, ⟨str "b", 5⟩] =
      .bars [(str "a", 100, 10), (str "b", 50, 5)] := by
  simp [fetchStatsRender, maxCount]
  norm_num
example : fetchStatsRender [] = .placeholder := by decide

/-! ## The reaction modal (script.js lines 107-163) -/

/-- The modal-related UI session state: whether the single reaction modal
element (`#reaction-modal`) is displayed, and the process-wide
`currentMessageIdForReact` variable (script.js line 107). -/
structure UIState where
  modalVisible : Bool
  currentMessageIdForReact : Option (List Char)
  deriving DecidableEq, Repr

/-- The initial state: the modal is hidden and no message is bound. -/
def initState : UIState := ⟨false, none⟩

/-- `promptReact` (script.js lines 109-117): bind the message id and show
the modal.  The subsequent reactions fetch only changes the modal's inner
content, never its visibility or the bound id. -/
def promptReact (messageId : List Char) (_ : UIState) : UIState :=
  ⟨true, some messageId⟩

/-- `closeModal` (script.js lines 146-149): hide the modal and reset
`currentMessageIdForReact` to null. -/
def closeModal (_ : UIState) : UIState := ⟨false, none⟩

/-- `selectEmoji` (script.js lines 151-156): when
`currentMessageIdForReact` is truthy (non-null and non-empty), call
`toggleFlag` with `pending_react:` followed by the emoji token, then
close the modal.  Returns the new state and the (messageId, flag value)
of the emitted `toggleFlag` call, if any. -/
def selectEmoji (emojiStr : List Char) (s : UIState) :
    UIState × Option (List Char × List Char) :=
  match s.currentMessageIdForReact with
  | some m =>
    if m ≠ [] then (closeModal s, some (m, str "pending_react:" ++ emojiStr))
    else (s, none)
  | none => (s, none)

/-- The UI states reachable from the initial one through the modal
operations: opening the modal (`promptReact`, from a React button or
while already open), closing it (explicit close, backdrop click), and
selecting a candidate (`selectEmoji`, also reached via `customReact`). -/
inductive ReachableUI : UIState → Prop
  | init : ReachableUI initState
  | prompt (id : List Char) {s : UIState} :
      ReachableUI s → ReachableUI (promptReact id s)
  | close {s : UIState} : ReachableUI s → ReachableUI (closeModal s)
  | select (e : List Char) {s : UIState} :
      ReachableUI s → ReachableUI (selectEmoji e s).1

example : (selectEmoji (str "✅") (promptReact (str "9") initState)).2 =
    some (str "9", str "pending_react:✅") := by decide

/-! ## Helper lemmas about `splitOnChar` and `listStartsWith` -/

lemma splitOnChar_cons (sep c : Char) (cs : List Char) :
    splitOnChar sep (c :: cs) =
      match splitOnChar sep cs with
      | [] => [[]]
      | h :: t => if c = sep then [] :: h :: t else (c :: h) :: t := rfl

lemma splitOnChar_ne_nil (sep : Char) (l : List Char) :
    splitOnChar sep l ≠ [] := by
  induction l with
  | nil => simp [splitOnChar]
  | cons c cs ih =>
    rw [splitOnChar_cons]
    cases h : splitOnChar sep cs with
    | nil => simp
    | cons hd tl =>
      dsimp only
      split <;> simp

lemma splitOnChar_sep_cons (sep : Char) (x : List Char) :
    splitOnChar sep (sep :: x) = [] :: splitOnChar sep x := by
  rw [splitOnChar_cons]
  cases h : splitOnChar sep x with
  | nil => exact absurd h (splitOnChar_ne_nil sep x)
  | cons hd tl => simp

lemma splitOnChar_cons_of_ne (sep c : Char) (x h' t : _) (hc : c ≠ sep)
    (hx : splitOnChar sep x = h' :: t) :
    splitOnChar sep (c :: x) = (c :: h') :: t := by
  rw [splitOnChar_cons, hx]
  simp [hc]

lemma splitOnChar_append_sep (sep : Char) (a x : List Char)
    (ha : ∀ c ∈ a, c ≠ sep) :
    splitOnChar sep (a ++ sep :: x) = a :: splitOnChar sep x := by
  induction a with
  | nil => simpa using splitOnChar_sep_cons sep x
  | cons c cs ih =>
    have hc : c ≠ sep := ha c (by simp)
    have ih' := ih (fun d hd => ha d (by simp [hd]))
    exact splitOnChar_cons_of_ne sep c _ _ _ hc ih'

lemma splitOnChar_of_no_sep (sep : Char) (a : List Char)
    (ha : ∀ c ∈ a, c ≠ sep) :
    splitOnChar sep a = [a] := by
  induction a with
  | nil => rfl
  | cons c cs ih =>
    have hc : c ≠ sep := ha c (by simp)
    exact splitOnChar_cons_of_ne sep c _ _ _ hc
      (ih fun d hd => ha d (by simp [hd]))

lemma listStartsWith_append (p t : List Char) :
    listStartsWith p (p ++ t) = true := by
  induction p with
  | nil => rfl
  | cons c cs ih => simp [listStartsWith, ih]

lemma listStartsWith_eq_append (p s : List Char)
    (h : listStartsWith p s = true) : ∃ t, s = p ++ t := by
  induction p generalizing s with
  | nil => exact ⟨s, rfl⟩
  | cons c cs ih =>
    cases s with
    | nil => simp [listStartsWith] at h
    | cons d ds =>
      simp only [listStartsWith, Bool.and_eq_true, decide_eq_true_eq] at h
      obtain ⟨t, ht⟩ := ih ds h.2
      exact ⟨t, by simp [h.1, ht]⟩

lemma pendingMarkup_head (e : List Char) :
    (pendingMarkup e).head? = some '<' := rfl

lemma getFlagIcon_of_pending (flag : List Char)
    (h : listStartsWith (str "pending_react:") flag = true) :
    getFlagIcon flag = pendingMarkup (pendingEmoji flag) := by
  have hg : flag ≠ str "green" := by rintro rfl; revert h; decide
  have hr : flag ≠ str "red" := by rintro rfl; revert h; decide
  have hne : flag ≠ [] := by rintro rfl; revert h; decide
  simp [getFlagIcon, hg, hr, hne, h]

lemma getFlagIcon_not_pending (flag : List Char)
    (h : listStartsWith (str "pending_react:") flag = false) :
    ∀ e, getFlagIcon flag ≠ pendingMarkup e := by
  intro e heq
  have hcirc : getFlagIcon flag = str "🟢" ∨ getFlagIcon flag = str "🔴" ∨
      getFlagIcon flag = str "⚪" := by
    unfold getFlagIcon
    split
    · exact Or.inl rfl
    · split
      · exact Or.inr (Or.inl rfl)
      · split
        · rename_i hcond
          rw [h] at hcond
          exact absurd hcond.2 (by simp)
        · exact Or.inr (Or.inr rfl)
  have hhead := congrArg List.head? heq
  rw [pendingMarkup_head] at hhead
  rcases hcirc with hc | hc | hc <;> rw [hc] at hhead <;>
    exact absurd hhead (by decide)

/-! ## C1: decoding of `pending_react:<token>` flags -/

/-- C1, counterexample: the claim says decoding splits on the first colon
only, so `pending_react:a:b` would yield emoji `a:b`.  In the code the
emoji is `flag.split(':')[1]`, which splits at every colon and takes the
second segment: the emoji of `pending_react:a:b` is `a`, not `a:b`. -/
theorem pending_decode_first_colon_counterexample :
    listStartsWith (str "pending_react:") (str "pending_react:a:b") = true ∧
    pendingEmoji (str "pending_react:a:b") = str "a" ∧
    pendingEmoji (str "pending_react:a:b") ≠ str "a:b" ∧
    getFlagIcon (str "pending_react:a:b") = pendingMarkup (str "a") := by
  decide

/-- C1, amended: a value is classified as pending iff it starts with the
literal prefix `pending_react:`, and the emoji token is the segment
between the first colon and the next colon (a colon-free token is
preserved verbatim; a token containing a colon is truncated at it, so
`pending_react:a:b` yields `a`). -/
theorem pending_decode_amended :
    (∀ t : List Char, (∀ c ∈ t, c ≠ ':') →
      pendingEmoji (str "pending_react:" ++ t) = t ∧
      ∀ u : List Char,
        pendingEmoji (str "pending_react:" ++ (t ++ ':' :: u)) = t) ∧
    ∀ flag : List Char,
      (∃ e, getFlagIcon flag = pendingMarkup e) ↔
        listStartsWith (str "pending_react:") flag = true := by
  constructor
  · intro t ht
    have hpr : ∀ c ∈ str "pending_react", c ≠ ':' := by decide
    constructor
    · have h1 : str "pending_react:" ++ t = str "pending_react" ++ ':' :: t :=
        rfl
      rw [pendingEmoji, h1, splitOnChar_append_sep ':' _ t hpr,
        splitOnChar_of_no_sep ':' t ht]
      rfl
    · intro u
      have h1 : str "pending_react:" ++ (t ++ ':' :: u) =
          str "pending_react" ++ ':' :: (t ++ ':' :: u) := rfl
      rw [pendingEmoji, h1, splitOnChar_append_sep ':' _ _ hpr,
        splitOnChar_append_sep ':' t u ht]
      rfl
  · intro flag
    constructor
    · rintro ⟨e, he⟩
      cases hx : listStartsWith (str "pending_react:") flag with
      | false => exact absurd he (getFlagIcon_not_pending flag hx e)
      | true => rfl
    · intro h
      exact ⟨pendingEmoji flag, getFlagIcon_of_pending flag h⟩

/-- C1, witness for the amended theorem at concrete inputs. -/
theorem pending_decode_amended_witness :
    pendingEmoji (str "pending_react:ok") = str "ok" ∧
    pendingEmoji (str "pending_react:" ++ (str "a" ++ ':' :: str "b")) =
      str "a" := by
  constructor
  · exact (pending_decode_amended.1 (str "ok") (by decide)).1
  · exact (pending_decode_amended.1 (str "a") (by decide)).2 (str "b")

/-! ## Lemmas about `escapeHtml` -/

lemma replaceAllChar_append (c : Char) (r a b : List Char) :
    replaceAllChar c r (a ++ b) =
      replaceAllChar c r a ++ replaceAllChar c r b := by
  induction a with
  | nil => rfl
  | cons x xs ih => by_cases h : x = c <;> simp [replaceAllChar, h, ih]

lemma replaceAllChar_singleton_ne (c : Char) (r : List Char) (x : Char)
    (h : x ≠ c) : replaceAllChar c r [x] = [x] := by
  simp [replaceAllChar, h]

lemma escapeHtml_cons (x : Char) (xs : List Char) :
    escapeHtml (x :: xs) = escapeChar x ++ escapeHtml xs := by
  have hsplit : (x :: xs : List Char) = [x] ++ xs := rfl
  unfold escapeHtml
  rw [hsplit, replaceAllChar_append, replaceAllChar_append,
    replaceAllChar_append, replaceAllChar_append, replaceAllChar_append]
  congr 1
  by_cases h1 : x = '&'
  · subst h1; decide
  by_cases h2 : x = '<'
  · subst h2; decide
  by_cases h3 : x = '>'
  · subst h3; decide
  by_cases h4 : x = '"'
  · subst h4; decide
  by_cases h5 : x = apos
  · subst h5; decide
  rw [replaceAllChar_singleton_ne _ _ _ h1,
    replaceAllChar_singleton_ne _ _ _ h2,
    replaceAllChar_singleton_ne _ _ _ h3,
    replaceAllChar_singleton_ne _ _ _ h4,
    replaceAllChar_singleton_ne _ _ _ h5]
  simp [escapeChar, h1, h2, h3, h4, h5]

lemma escapeHtml_eq_flatMap (s : List Char) :
    escapeHtml s = s.flatMap escapeChar := by
  induction s with
  | nil => rfl
  | cons x xs ih => rw [escapeHtml_cons, ih]; simp

lemma noRawSpecials_cons_ne (x : Char) (rest : List Char)
    (h1 : x ≠ '&') (h2 : x ≠ '<') (h3 : x ≠ '>') (h4 : x ≠ '"')
    (h5 : x ≠ apos) :
    noRawSpecials (x :: rest) = noRawSpecials rest := by
  rw [noRawSpecials]
  rw [if_neg (fun hc => h1 hc.1), if_neg (fun hc => h1 hc.1),
    if_neg (fun hc => h1 hc.1), if_neg (fun hc => h1 hc.1),
    if_neg (fun hc => h1 hc.1)]
  simp [h1, h2, h3, h4, h5]

lemma noRawSpecials_amp (l : List Char) :
    noRawSpecials (str "&amp;" ++ l) = noRawSpecials l := by
  have h : str "&amp;" ++ l = '&' :: (str "amp;" ++ l) := rfl
  rw [h, noRawSpecials, if_pos ⟨rfl, listStartsWith_append _ _⟩]
  rfl

lemma noRawSpecials_lt (l : List Char) :
    noRawSpecials (str "&lt;" ++ l) = noRawSpecials l := by
  have h : str "&lt;" ++ l = '&' :: (str "lt;" ++ l) := rfl
  have hx : str "lt;" ++ l = 'l' :: 't' :: ';' :: l := rfl
  rw [h, noRawSpecials]
  rw [if_neg ?h1, if_pos ⟨rfl, listStartsWith_append _ _⟩]
  case h1 => rintro ⟨-, hs⟩; rw [hx] at hs; simp [listStartsWith] at hs
  rfl

lemma noRawSpecials_gt (l : List Char) :
    noRawSpecials (str "&gt;" ++ l) = noRawSpecials l := by
  have h : str "&gt;" ++ l = '&' :: (str "gt;" ++ l) := rfl
  have hx : str "gt;" ++ l = 'g' :: 't' :: ';' :: l := rfl
  rw [h, noRawSpecials]
  rw [if_neg ?h1, if_neg ?h2, if_pos ⟨rfl, listStartsWith_append _ _⟩]
  case h1 => rintro ⟨-, hs⟩; rw [hx] at hs; simp [listStartsWith] at hs
  case h2 => rintro ⟨-, hs⟩; rw [hx] at hs; simp [listStartsWith] at hs
  rfl

lemma noRawSpecials_quot (l : List Char) :
    noRawSpecials (str "&quot;" ++ l) = noRawSpecials l := by
  have h : str "&quot;" ++ l = '&' :: (str "quot;" ++ l) := rfl
  have hx : str "quot;" ++ l = 'q' :: 'u' :: 'o' :: 't' :: ';' :: l := rfl
  rw [h, noRawSpecials]
  rw [if_neg ?h1, if_neg ?h2, if_neg ?h3,
    if_pos ⟨rfl, listStartsWith_append _ _⟩]
  case h1 => rintro ⟨-, hs⟩; rw [hx] at hs; simp [listStartsWith] at hs
  case h2 => rintro ⟨-, hs⟩; rw [hx] at hs; simp [listStartsWith] at hs
  case h3 => rintro ⟨-, hs⟩; rw [hx] at hs; simp [listStartsWith] at hs
  rfl

lemma noRawSpecials_aposEntity (l : List Char) :
    noRawSpecials (str "&#039;" ++ l) = noRawSpecials l := by
  have h : str "&#039;" ++ l = '&' :: (str "#039;" ++ l) := rfl
  have hx : str "#039;" ++ l = '#' :: '0' :: '3' :: '9' :: ';' :: l := rfl
  rw [h, noRawSpecials]
  rw [if_neg ?h1, if_neg ?h2, if_neg ?h3, if_neg ?h4,
    if_pos ⟨rfl, listStartsWith_append _ _⟩]
  case h1 => rintro ⟨-, hs⟩; rw [hx] at hs; simp [listStartsWith] at hs
  case h2 => rintro ⟨-, hs⟩; rw [hx] at hs; simp [listStartsWith] at hs
  case h3 => rintro ⟨-, hs⟩; rw [hx] at hs; simp [listStartsWith] at hs
  case h4 => rintro ⟨-, hs⟩; rw [hx] at hs; simp [listStartsWith] at hs
  rfl

lemma htmlDecode_cons_ne (x : Char) (rest : List Char) (h1 : x ≠ '&') :
    htmlDecode (x :: rest) = x :: htmlDecode rest := by
  rw [htmlDecode]
  rw [if_neg (fun hc => h1 hc.1), if_neg (fun hc => h1 hc.1),
    if_neg (fun hc => h1 hc.1), if_neg (fun hc => h1 hc.1),
    if_neg (fun hc => h1 hc.1)]

lemma htmlDecode_amp (l : List Char) :
    htmlDecode (str "&amp;" ++ l) = '&' :: htmlDecode l := by
  have h : str "&amp;" ++ l = '&' :: (str "amp;" ++ l) := rfl
  rw [h, htmlDecode, if_pos ⟨rfl, listStartsWith_append _ _⟩]
  rfl

lemma htmlDecode_lt (l : List Char) :
    htmlDecode (str "&lt;" ++ l) = '<' :: htmlDecode l := by
  have h : str "&lt;" ++ l = '&' :: (str "lt;" ++ l) := rfl
  have hx : str "lt;" ++ l = 'l' :: 't' :: ';' :: l := rfl
  rw [h, htmlDecode]
  rw [if_neg ?h1, if_pos ⟨rfl, listStartsWith_append _ _⟩]
  case h1 => rintro ⟨-, hs⟩; rw [hx] at hs; simp [listStartsWith] at hs
  rfl

lemma htmlDecode_gt (l : List Char) :
    htmlDecode (str "&gt;" ++ l) = '>' :: htmlDecode l := by
  have h : str "&gt;" ++ l = '&' :: (str "gt;" ++ l) := rfl
  have hx : str "gt;" ++ l = 'g' :: 't' :: ';' :: l := rfl
  rw [h, htmlDecode]
  rw [if_neg ?h1, if_neg ?h2, if_pos ⟨rfl, listStartsWith_append _ _⟩]
  case h1 => rintro ⟨-, hs⟩; rw [hx] at hs; simp [listStartsWith] at hs
  case h2 => rintro ⟨-, hs⟩; rw [hx] at hs; simp [listStartsWith] at hs
  rfl

lemma htmlDecode_quot (l : List Char) :
    htmlDecode (str "&quot;" ++ l) = '"' :: htmlDecode l := by
  have h : str "&quot;" ++ l = '&' :: (str "quot;" ++ l) := rfl
  have hx : str "quot;" ++ l = 'q' :: 'u' :: 'o' :: 't' :: ';' :: l := rfl
  rw [h, htmlDecode]
  rw [if_neg ?h1, if_neg ?h2, if_neg ?h3,
    if_pos ⟨rfl, listStartsWith_append _ _⟩]
  case h1 => rintro ⟨-, hs⟩; rw [hx] at hs; simp [listStartsWith] at hs
  case h2 => rintro ⟨-, hs⟩; rw [hx] at hs; simp [listStartsWith] at hs
  case h3 => rintro ⟨-, hs⟩; rw [hx] at hs; simp [listStartsWith] at hs
  rfl

lemma htmlDecode_aposEntity (l : List Char) :
    htmlDecode (str "&#039;" ++ l) = apos :: htmlDecode l := by
  have h : str "&#039;" ++ l = '&' :: (str "#039;" ++ l) := rfl
  have hx : str "#039;" ++ l = '#' :: '0' :: '3' :: '9' :: ';' :: l := rfl
  rw [h, htmlDecode]
  rw [if_neg ?h1, if_neg ?h2, if_neg ?h3, if_neg ?h4,
    if_pos ⟨rfl, listStartsWith_append _ _⟩]
  case h1 => rintro ⟨-, hs⟩; rw [hx] at hs; simp [listStartsWith] at hs
  case h2 => rintro ⟨-, hs⟩; rw [hx] at hs; simp [listStartsWith] at hs
  case h3 => rintro ⟨-, hs⟩; rw [hx] at hs; simp [listStartsWith] at hs
  case h4 => rintro ⟨-, hs⟩; rw [hx] at hs; simp [listStartsWith] at hs
  rfl

lemma noRawSpecials_nil : noRawSpecials [] = true := by
  rw [noRawSpecials]

lemma htmlDecode_nil : htmlDecode [] = [] := by
  rw [htmlDecode]

lemma noRawSpecials_escapeHtml (s : List Char) :
    noRawSpecials (escapeHtml s) = true := by
  induction s with
  | nil => rw [show escapeHtml [] = [] from rfl, noRawSpecials_nil]
  | cons x xs ih =>
    rw [escapeHtml_cons]
    by_cases h1 : x = '&'
    · subst h1
      rw [show escapeChar '&' = str "&amp;" from rfl, noRawSpecials_amp]
      exact ih
    by_cases h2 : x = '<'
    · subst h2
      rw [show escapeChar '<' = str "&lt;" from rfl, noRawSpecials_lt]
      exact ih
    by_cases h3 : x = '>'
    · subst h3
      rw [show escapeChar '>' = str "&gt;" from rfl, noRawSpecials_gt]
      exact ih
    by_cases h4 : x = '"'
    · subst h4
      rw [show escapeChar '"' = str "&quot;" from rfl, noRawSpecials_quot]
      exact ih
    by_cases h5 : x = apos
    · subst h5
      rw [show escapeChar apos = str "&#039;" from rfl,
        noRawSpecials_aposEntity]
      exact ih
    have hc : escapeChar x = [x] := by simp [escapeChar, h1, h2, h3, h4, h5]
    rw [hc, List.singleton_append,
      noRawSpecials_cons_ne x _ h1 h2 h3 h4 h5]
    exact ih

lemma htmlDecode_escapeHtml (s : List Char) :
    htmlDecode (escapeHtml s) = s := by
  induction s with
  | nil => rw [show escapeHtml [] = [] from rfl, htmlDecode_nil]
  | cons x xs ih =>
    rw [escapeHtml_cons]
    by_cases h1 : x = '&'
    · subst h1
      rw [show escapeChar '&' = str "&amp;" from rfl, htmlDecode_amp, ih]
    by_cases h2 : x = '<'
    · subst h2
      rw [show escapeChar '<' = str "&lt;" from rfl, htmlDecode_lt, ih]
    by_cases h3 : x = '>'
    · subst h3
      rw [show escapeChar '>' = str "&gt;" from rfl, htmlDecode_gt, ih]
    by_cases h4 : x = '"'
    · subst h4
      rw [show escapeChar '"' = str "&quot;" from rfl, htmlDecode_quot, ih]
    by_cases h5 : x = apos
    · subst h5
      rw [show escapeChar apos = str "&#039;" from rfl,
        htmlDecode_aposEntity, ih]
    have hc : escapeChar x = [x] := by simp [escapeChar, h1, h2, h3, h4, h5]
    rw [hc, List.singleton_append, htmlDecode_cons_ne x _ h1, ih]

/-! ## C4: the HTML escaper -/

/-- C4: `escapeHtml` is exactly the per-character replacement of the five
special characters by their entities, applied in source order and without
re-escaping (the composition of the five passes equals one pass of the
character table `escapeChar`); the output contains no unescaped
occurrence of the five characters; and decoding the entities — the
visible text content of the escaped markup — recovers the input. -/
theorem escapeHtml_escapes_exactly_five (s : List Char) :
    escapeHtml s = s.flatMap escapeChar ∧
    noRawSpecials (escapeHtml s) = true ∧
    htmlDecode (escapeHtml s) = s :=
  ⟨escapeHtml_eq_flatMap s, noRawSpecials_escapeHtml s,
    htmlDecode_escapeHtml s⟩

/-! ## Lemmas about the flag-class patching -/

lemma mem_cleanFlagClasses (cs : List (List Char)) (a : List Char) :
    a ∈ cleanFlagClasses cs ↔
      a ∈ cs ∧ a ≠ str "flag-green" ∧ a ≠ str "flag-red" ∧
        a ≠ str "flag-pending_react" := by
  simp [cleanFlagClasses, classListRemove, List.mem_filter, and_assoc]
  tauto

lemma filter_known_cleanFlagClasses (cs : List (List Char)) :
    (cleanFlagClasses cs).filter
      (fun c => decide (c ∈ knownFlagClasses)) = [] := by
  rw [List.filter_eq_nil_iff]
  intro a ha
  rw [mem_cleanFlagClasses] at ha
  simp [knownFlagClasses]
  exact ⟨ha.2.1, ha.2.2.1, ha.2.2.2⟩

lemma not_mem_cleanFlagClasses_of_known (cs : List (List Char))
    (fc : List Char) (h : fc ∈ knownFlagClasses) :
    fc ∉ cleanFlagClasses cs := by
  intro hmem
  rw [mem_cleanFlagClasses] at hmem
  simp [knownFlagClasses] at h
  rcases h with h | h | h
  · exact hmem.2.1 h
  · exact hmem.2.2.1 h
  · exact hmem.2.2.2 h

lemma flagVisual_patchNode (color : List Char) (el : MsgNode) :
    flagVisual (patchNode color el) =
      (flagClassesFor color, getFlagIcon color) := by
  cases haddc : addedFlagClass color with
  | none =>
    simp only [flagVisual, patchNode, flagClassesFor, haddc]
    rw [filter_known_cleanFlagClasses]
  | some fc =>
    simp only [flagVisual, patchNode, flagClassesFor, haddc, classListAdd]
    by_cases hk : fc ∈ knownFlagClasses
    · rw [if_neg (not_mem_cleanFlagClasses_of_known el.classes fc hk)]
      rw [List.filter_append, filter_known_cleanFlagClasses]
      simp [hk]
    · by_cases hmem : fc ∈ cleanFlagClasses el.classes
      · rw [if_pos hmem, filter_known_cleanFlagClasses]
        simp [hk]
      · rw [if_neg hmem, List.filter_append, filter_known_cleanFlagClasses]
        simp [hk]

lemma patchNode_msgId (color : List Char) (el : MsgNode) :
    (patchNode color el).msgId = el.msgId := rfl

lemma patchNode_content (color : List Char) (el : MsgNode) :
    (patchNode color el).content = el.content := rfl

/-! ## C2 and C3: `toggleFlag` -/

/-- C2: after a successful flag mutation, every DOM node tagged with the
message identifier is patched in place — its flag-derived visual state
(flag state classes and indicator icon) becomes the one derived from the
new value via the codec, identical across however many duplicates exist,
while its identifier and remaining content are preserved; nodes tagged
with other identifiers are untouched, and no node is added or removed
(no re-fetch, no full re-render). -/
theorem toggleFlag_success_updates_all_instances
    (mid color : List Char) (dom : List MsgNode) (i : ℕ) (d : MsgNode)
    (hi : i < dom.length) :
    (toggleFlag mid color (FetchOutcome.response true) dom).dom =
      toggleFlagSuccess mid color dom ∧
    (toggleFlagSuccess mid color dom).length = dom.length ∧
    ((dom.getD i d).msgId ≠ mid →
      (toggleFlagSuccess mid color dom).getD i d = dom.getD i d) ∧
    ((dom.getD i d).msgId = mid →
      flagVisual ((toggleFlagSuccess mid color dom).getD i d) =
        (flagClassesFor color, getFlagIcon color) ∧
      ((toggleFlagSuccess mid color dom).getD i d).msgId =
        (dom.getD i d).msgId ∧
      ((toggleFlagSuccess mid color dom).getD i d).content =
        (dom.getD i d).content) := by
  have hlen : (toggleFlagSuccess mid color dom).length = dom.length := by
    simp [toggleFlagSuccess]
  have hsome : dom[i]? = some dom[i] := List.getElem?_eq_getElem hi
  have hget : (toggleFlagSuccess mid color dom).getD i d =
      if dom[i].msgId = mid then patchNode color dom[i] else dom[i] := by
    rw [List.getD_eq_getElem?_getD, toggleFlagSuccess, List.getElem?_map,
      hsome]
    rfl
  have hgetd : dom.getD i d = dom[i] := by
    rw [List.getD_eq_getElem?_getD, hsome]
    rfl
  refine ⟨rfl, hlen, ?_, ?_⟩
  · intro hne
    rw [hgetd] at hne
    rw [hget, if_neg hne, hgetd]
  · intro heq
    rw [hgetd] at heq
    rw [hget, if_pos heq, hgetd]
    exact ⟨flagVisual_patchNode color dom[i],
      patchNode_msgId color dom[i], patchNode_content color dom[i]⟩

/-- C2, witness: a one-node document whose node carries the message id,
patched with value `green`. -/
theorem toggleFlag_success_updates_all_instances_witness :
    flagVisual ((toggleFlagSuccess (str "1") (str "green")
        [⟨str "1", [str "message-item"], str "⚪", str "b"⟩]).getD 0
        ⟨[], [], [], []⟩) =
      (flagClassesFor (str "green"), getFlagIcon (str "green")) :=
  ((toggleFlag_success_updates_all_instances (str "1") (str "green")
    [⟨str "1", [str "message-item"], str "⚪", str "b"⟩] 0 ⟨[], [], [], []⟩
    (by decide)).2.2.2 (by decide)).1

/-- C3, counterexample: a non-success response counts as a failed
request, yet nothing is logged — `console.error` runs only when the
`fetch` call itself throws, while a resolved response with `ok = false`
falls through the `if` silently. -/
theorem toggleFlag_failure_logs_counterexample :
    isFailure (FetchOutcome.response false) = true ∧
    (toggleFlag (str "1") (str "green") (FetchOutcome.response false)
      []).logged = false := by
  decide

/-- C3, amended: a failed flag mutation (network failure or non-success
response) leaves the whole document — hence the visual state of every
matching node — unchanged, and never throws to the caller (the model is
total); the error is logged only for a network failure, while a
non-success response is ignored silently without logging. -/
theorem toggleFlag_failure_leaves_dom
    (mid color : List Char) (dom : List MsgNode) (out : FetchOutcome)
    (h : isFailure out = true) :
    (toggleFlag mid color out dom).dom = dom ∧
    ((toggleFlag mid color out dom).logged = true ↔
      out = FetchOutcome.netError) := by
  cases out with
  | netError => simp [toggleFlag]
  | response ok =>
    cases ok with
    | true => simp [isFailure] at h
    | false => simp [toggleFlag]

/-- C3, witness: the two failure modes at a concrete document. -/
theorem toggleFlag_failure_leaves_dom_witness :
    isFailure FetchOutcome.netError = true ∧
    (toggleFlag (str "1") (str "green") FetchOutcome.netError
      [⟨str "1", [], str "⚪", []⟩]).dom = [⟨str "1", [], str "⚪", []⟩] :=
  ⟨by decide, (toggleFlag_failure_leaves_dom (str "1") (str "green")
    [⟨str "1", [], str "⚪", []⟩] FetchOutcome.netError (by decide)).1⟩

/-! ## C5 and C6: `fetchStats` -/

lemma maxCount_pos (l : List ℚ) (hne : l ≠ []) (hpos : ∀ x ∈ l, 0 < x) :
    0 < maxCount l := by
  induction l with
  | nil => exact absurd rfl hne
  | cons x xs ih =>
    cases xs with
    | nil => exact hpos x (by simp)
    | cons y ys =>
      rw [maxCount]
      exact lt_max_of_lt_left (hpos x (by simp))

/-- C5: for a non-empty result set, `fetchStats` renders one labeled bar
per entry whose width percentage is `(count / max) * 100` with `max` the
maximum count; the concrete pair `10, 5` yields widths `100` and `50`;
the empty result set renders the empty-state placeholder without
computing any maximum or ratio. -/
theorem fetchStats_bar_widths :
    fetchStatsRender [⟨str "a", 10⟩, ⟨str "b", 5⟩] =
      .bars [(str "a", 100, 10), (str "b", 50, 5)] ∧
    fetchStatsRender [] = .placeholder ∧
    ∀ stats : List WordStat, stats ≠ [] →
      fetchStatsRender stats = .bars (stats.map (fun s =>
        (s.word, s.count / maxCount (stats.map WordStat.count) * 100,
          s.count))) := by
  refine ⟨?_, rfl, ?_⟩
  · simp [fetchStatsRender, maxCount]
    norm_num
  · intro stats h
    rw [fetchStatsRender, if_neg (by simpa using h)]

/-- C5, witness: the non-empty branch at a one-entry list. -/
theorem fetchStats_bar_widths_witness :
    fetchStatsRender [⟨str "w", 3⟩] =
      .bars [(str "w", 3 / maxCount [(3 : ℚ)] * 100, 3)] :=
  fetchStats_bar_widths.2.2 [⟨str "w", 3⟩] (by decide)

/-- C6, counterexample: the claim derives `max > 0` from the guard plus
non-negative counts, but a non-empty all-zero count list passes the guard
with maximum 0 (the division `count / max` is then `0 / 0`). -/
theorem stats_guard_counterexample :
    ([⟨str "a", 0⟩] : List WordStat) ≠ [] ∧
    (∀ s ∈ ([⟨str "a", 0⟩] : List WordStat), 0 ≤ s.count) ∧
    ¬ 0 < maxCount (([⟨str "a", 0⟩] : List WordStat).map WordStat.count) := by
  refine ⟨by decide, ?_, ?_⟩
  · intro s hs
    rw [List.mem_singleton] at hs
    subst hs
    norm_num
  · rw [show (([⟨str "a", 0⟩] : List WordStat).map WordStat.count) =
      [(0 : ℚ)] from rfl, maxCount]
    norm_num

/-- C6, amended: the ratio `count / max` is computed only when the result
set is non-empty (the empty case renders the placeholder before any
maximum is taken), and the guard guarantees `max > 0` provided all counts
are strictly positive; non-negative counts alone do not suffice, since an
all-zero list passes the guard with maximum 0. -/
theorem stats_guard_amended :
    fetchStatsRender [] = .placeholder ∧
    ∀ stats : List WordStat, stats ≠ [] →
      (∀ s ∈ stats, 0 < s.count) →
      0 < maxCount (stats.map WordStat.count) := by
  refine ⟨rfl, ?_⟩
  intro stats hne hpos
  apply maxCount_pos
  · simpa using hne
  · intro x hx
    rw [List.mem_map] at hx
    obtain ⟨s, hs, rfl⟩ := hx
    exact hpos s hs

/-- C6, witness for the amended theorem at a concrete one-entry list. -/
theorem stats_guard_amended_witness :
    0 < maxCount (([⟨str "a", 1⟩] : List WordStat).map WordStat.count) :=
  stats_guard_amended.2 [⟨str "a", 1⟩] (by decide) (by
    intro s hs
    rw [List.mem_singleton] at hs
    subst hs
    norm_num)

/-! ## C7: the class derivation strips the payload and is stable -/

lemma pendingVal_ne_none (x : List Char) :
    str "pending_react:" ++ x ≠ str "none" := by
  intro h
  have h2 := congrArg List.head? h
  rw [show (str "pending_react:" ++ x).head? = some 'p' from rfl] at h2
  exact absurd h2 (by decide)

lemma addedFlagClass_pending (x : List Char) :
    addedFlagClass (str "pending_react:" ++ x) =
      some (str "flag-pending_react") := by
  rw [addedFlagClass, if_neg (pendingVal_ne_none x)]
  congr 1
  have h1 : str "pending_react:" ++ x = str "pending_react" ++ ':' :: x := rfl
  rw [h1, splitOnChar_append_sep ':' _ _ (by decide)]
  rfl

lemma classListRemove_eq_self (cs : List (List Char)) (c : List Char)
    (h : ∀ a ∈ cs, a ≠ c) : classListRemove cs c = cs :=
  List.filter_eq_self.mpr (fun a ha => by simpa using h a ha)

lemma cleanFlagClasses_idem (cs : List (List Char)) :
    cleanFlagClasses (cleanFlagClasses cs) = cleanFlagClasses cs := by
  have h : ∀ a ∈ cleanFlagClasses cs,
      a ≠ str "flag-green" ∧ a ≠ str "flag-red" ∧
        a ≠ str "flag-pending_react" :=
    fun a ha => ((mem_cleanFlagClasses cs a).1 ha).2
  rw [cleanFlagClasses,
    classListRemove_eq_self _ _ (fun a ha => (h a ha).1),
    classListRemove_eq_self _ _ (fun a ha => (h a ha).2.1),
    classListRemove_eq_self _ _ (fun a ha => (h a ha).2.2)]

lemma cleanFlagClasses_append (a b : List (List Char)) :
    cleanFlagClasses (a ++ b) = cleanFlagClasses a ++ cleanFlagClasses b := by
  simp [cleanFlagClasses, classListRemove, List.filter_append]

lemma classListAdd_of_mem (cs : List (List Char)) (c : List Char)
    (h : c ∈ cs) : classListAdd cs c = cs := by
  rw [classListAdd, if_pos h]

lemma classListAdd_of_not_mem (cs : List (List Char)) (c : List Char)
    (h : c ∉ cs) : classListAdd cs c = cs ++ [c] := by
  rw [classListAdd, if_neg h]

lemma classListAdd_clean_idem (cs : List (List Char)) (fc : List Char) :
    classListAdd (cleanFlagClasses (classListAdd (cleanFlagClasses cs) fc))
      fc = classListAdd (cleanFlagClasses cs) fc := by
  by_cases hm : fc ∈ cleanFlagClasses cs
  · rw [classListAdd_of_mem _ _ hm, cleanFlagClasses_idem]
    exact classListAdd_of_mem _ _ hm
  · rw [classListAdd_of_not_mem _ _ hm, cleanFlagClasses_append,
      cleanFlagClasses_idem]
    by_cases h3 : fc = str "flag-green" ∨ fc = str "flag-red" ∨
        fc = str "flag-pending_react"
    · have hnil : cleanFlagClasses [fc] = [] := by
        rcases h3 with rfl | rfl | rfl <;> decide
      rw [hnil, List.append_nil, classListAdd_of_not_mem _ _ hm]
    · push_neg at h3
      have hone : cleanFlagClasses [fc] = [fc] := by
        simp [cleanFlagClasses, classListRemove, h3.1, h3.2.1, h3.2.2]
      rw [hone, classListAdd_of_mem _ _ (by simp)]

lemma patchNode_idem (v : List Char) (el : MsgNode) :
    patchNode v (patchNode v el) = patchNode v el := by
  cases haddc : addedFlagClass v with
  | none =>
    simp only [patchNode, haddc]
    simp [cleanFlagClasses_idem]
  | some fc =>
    simp only [patchNode, haddc]
    simp [classListAdd_clean_idem]

/-- C7: the structural-class derivation truncates the value at its first
colon, so `pending_react:<x>` and the plain marker `pending_react`
produce the same structural class; and the flag-derived update is stable:
patching a node twice with the same value — same class derivation, same
icon — equals patching it once. -/
theorem class_derivation_strips_and_stable :
    (∀ x : List Char,
      addedFlagClass (str "pending_react:" ++ x) =
        addedFlagClass (str "pending_react")) ∧
    ∀ (v : List Char) (el : MsgNode),
      patchNode v (patchNode v el) = patchNode v el := by
  constructor
  · intro x
    rw [addedFlagClass_pending]
    decide
  · intro v el
    exact patchNode_idem v el

/-! ## C8 and C9: the reaction modal -/

/-- C8: with the modal open for message `m` (a non-empty identifier
bound in `currentMessageIdForReact`), selecting a candidate with emoji
token `e` emits exactly one flag-mutation call with the value
`pending_react:` concatenated with `e`, and then closes the modal. -/
theorem selectEmoji_emits_pending_value
    (m e : List Char) (s : UIState)
    (hm : s.currentMessageIdForReact = some m) (hne : m ≠ []) :
    (selectEmoji e s).2 = some (m, str "pending_react:" ++ e) ∧
    (selectEmoji e s).1 = closeModal s ∧
    (selectEmoji e s).1.modalVisible = false := by
  simp [selectEmoji, hm, hne, closeModal]

/-- C8, witness: opening the modal for message `9` and selecting `✅`. -/
theorem selectEmoji_emits_pending_value_witness :
    (selectEmoji (str "✅") (promptReact (str "9") initState)).2 =
      some (str "9", str "pending_react:" ++ str "✅") :=
  (selectEmoji_emits_pending_value (str "9") (str "✅")
    (promptReact (str "9") initState) (by decide) (by decide)).1

/-- C9: in every state reachable through the modal operations, the (one)
modal is visible iff `currentMessageIdForReact` is non-null, and closing
the modal always hides it and resets `currentMessageIdForReact` to null. -/
theorem modal_state_invariant (s : UIState) (h : ReachableUI s) :
    (s.modalVisible = true ↔ s.currentMessageIdForReact ≠ none) ∧
    (closeModal s).currentMessageIdForReact = none ∧
    (closeModal s).modalVisible = false := by
  refine ⟨?_, rfl, rfl⟩
  induction h with
  | init => simp [initState]
  | prompt id h ih => simp [promptReact]
  | close h ih => simp [closeModal]
  | select e h ih =>
    rename_i t
    rcases hc : t.currentMessageIdForReact with - | m
    · simpa [selectEmoji, hc] using ih
    · by_cases hm : m = []
      · subst hm
        simpa [selectEmoji, hc] using ih
      · simp [selectEmoji, hc, hm, closeModal]

/-- C9, witness: the invariant at the reachable state with the modal
open for message `9`. -/
theorem modal_state_invariant_witness :
    ((promptReact (str "9") initState).modalVisible = true ↔
      (promptReact (str "9") initState).currentMessageIdForReact ≠ none) ∧
    (closeModal (promptReact (str "9") initState)).currentMessageIdForReact =
      none ∧
    (closeModal (promptReact (str "9") initState)).modalVisible = false :=
  modal_state_invariant (promptReact (str "9") initState)
    (ReachableUI.prompt (str "9") ReachableUI.init)

/-! ## C10: freshly rendered pending messages lack the patch class -/

lemma pendingVal_ne_green (x : List Char) :
    str "pending_react:" ++ x ≠ str "green" := by
  intro h
  have h2 := congrArg List.head? h
  rw [show (str "pending_react:" ++ x).head? = some 'p' from rfl] at h2
  exact absurd h2 (by decide)

lemma pendingVal_ne_red (x : List Char) :
    str "pending_react:" ++ x ≠ str "red" := by
  intro h
  have h2 := congrArg List.head? h
  rw [show (str "pending_react:" ++ x).head? = some 'p' from rfl] at h2
  exact absurd h2 (by decide)

/-- C10: `renderMessage` derives a flag class only for `green` and `red`;
for every other flag value — in particular every `pending_react:<emoji>`
value — the rendered element carries no `flag-` structural class at all,
whereas the `toggleFlag` patch path adds `flag-pending_react` for the
same value: a freshly rendered pending-reaction message lacks the class
the patch path applies. -/
theorem render_pending_lacks_patch_class
    (flag : List Char) (isT : Bool)
    (hg : flag ≠ str "green") (hr : flag ≠ str "red") :
    (∀ c ∈ renderClasses flag isT,
      listStartsWith (str "flag-") c = false) ∧
    ∀ e : List Char,
      str "flag-pending_react" ∉
        renderClasses (str "pending_react:" ++ e) isT ∧
      addedFlagClass (str "pending_react:" ++ e) =
        some (str "flag-pending_react") := by
  constructor
  · intro c hc
    have hfc : renderFlagClass flag = [] := by
      rw [renderFlagClass, if_neg hg, if_neg hr]
    rw [renderClasses, hfc] at hc
    simp at hc
    cases isT with
    | false =>
      simp at hc
      subst hc
      decide
    | true =>
      simp at hc
      rcases hc with rfl | rfl <;> decide
  · intro e
    constructor
    · intro hmem
      have hfc : renderFlagClass (str "pending_react:" ++ e) = [] := by
        rw [renderFlagClass, if_neg (pendingVal_ne_green e),
          if_neg (pendingVal_ne_red e)]
      rw [renderClasses, hfc] at hmem
      simp at hmem
      cases isT with
      | false =>
        simp at hmem
        exact absurd hmem (by decide)
      | true =>
        simp at hmem
        rcases hmem with h | h <;> exact absurd h (by decide)
    · exact addedFlagClass_pending e

/-- C10, witness: a concrete pending flag rendered as a target message. -/
theorem render_pending_lacks_patch_class_witness :
    str "flag-pending_react" ∉
      renderClasses (str "pending_react:" ++ str "✅") true :=
  ((render_pending_lacks_patch_class (str "pending_react:✅") true
    (by decide) (by decide)).2 (str "✅")).1
